import Mathlib

/-!
Verification of the biometric staging reconciliation module
(`erpbiometric_sync/doctype/biometric_data_staging/biometric_data_staging.py`).

The document store is embedded as explicit state (`Store` for the
reconciliation engine, `RStore` for the exceptional-report generator);
`process_biometric_logs` and `send_exceptional_report` are translated
line by line from the Python source.  Per-record exception handling is
modelled by an oracle choosing, per staged record, at which primitive
operation (if any) the framework raises.
-/

namespace BiometricSync

/-- A row of the `Biometric Data Staging` doctype. -/
structure StagedRecord where
  name : String
  attendance_device_id : String
  timestamp : String
  punch_type : String
  device_id : String
  status : String
deriving DecidableEq, Repr

/-- A row of the `Employee` doctype (the fields the module reads). -/
structure Employee where
  name : String
  attendance_device_id : String
deriving DecidableEq, Repr

/-- A row of the `Employee Checkin` doctype (the fields the module writes). -/
structure Checkin where
  employee : String
  time : String
  log_type : String
  device_id : String
deriving DecidableEq, Repr

/-- Observable effects of one pass, recorded in order of occurrence. -/
inductive Event where
  | statusWrite (nm v : String)
  | checkinInsert (c : Checkin)
  | errorLogged (msg title : String)
  | commit
deriving DecidableEq, Repr

/-- The slice of the document store the reconciliation engine touches. -/
structure Store where
  staged : List StagedRecord
  employees : List Employee
  checkins : List Checkin
  errorLog : List (String × String)
  events : List Event
deriving DecidableEq, Repr

/-- `frappe.get_all("Biometric Data Staging", filters={"status": "Pending"}, ...)`. -/
def get_pending (s : Store) : List StagedRecord :=
  s.staged.filter (fun r => r.status = "Pending")

/-- `frappe.get_value("Employee", {"attendance_device_id": ...}, "name")`:
the name of the first matching employee, if any. -/
def get_employee (s : Store) (adid : String) : Option String :=
  (s.employees.find? (fun e => e.attendance_device_id = adid)).map (fun e => e.name)

/-- `frappe.db.exists("Employee Checkin", {"employee": emp, "time": t})`. -/
def checkin_matches (s : Store) (emp t : String) : Bool :=
  s.checkins.any (fun c => c.employee = emp && c.time = t)

/-- Pointwise effect of a status write on one staged row. -/
def status_update (nm v : String) (r : StagedRecord) : StagedRecord :=
  if r.name = nm then { r with status := v } else r

/-- `frappe.db.set_value("Biometric Data Staging", nm, "status", v)`:
rewrite the status of the staged record(s) named `nm`. -/
def set_status (s : Store) (nm v : String) : Store :=
  { s with
    staged := s.staged.map (status_update nm v),
    events := s.events ++ [Event.statusWrite nm v] }

/-- `checkin.insert(ignore_permissions=True)` on a fresh Employee Checkin doc. -/
def insert_checkin (s : Store) (c : Checkin) : Store :=
  { s with
    checkins := s.checkins ++ [c],
    events := s.events ++ [Event.checkinInsert c] }

/-- `frappe.log_error(msg, title)`. -/
def log_error (s : Store) (msg title : String) : Store :=
  { s with
    errorLog := s.errorLog ++ [(msg, title)],
    events := s.events ++ [Event.errorLogged msg title] }

/-- `frappe.db.commit()`. -/
def db_commit (s : Store) : Store :=
  { s with events := s.events ++ [Event.commit] }

/-- The primitive operations inside the per-record `try` block at which the
framework may raise. -/
inductive FailPoint where
  | atEmployeeLookup
  | atDuplicateCheck
  | atSetDuplicate
  | atInsert
  | atSetProcessed
  | atSetIgnored
deriving DecidableEq, Repr

/-- Per-record failure oracle: which primitive operation (if any) raises
while this record is being processed. -/
def Oracle : Type := StagedRecord → Option FailPoint

/-- The message of `frappe.log_error(f"Failed to process log {log.name}: {str(e)}", ...)`
(the exception detail is abstracted to a fixed token). -/
def fail_msg (nm : String) : String :=
  "Failed to process log " ++ nm ++ ": error"

def fail_title : String := "Biometric Log Processing Error"

/-- The body of the `for log in unsynced_logs` loop, one iteration:
employee match, duplicate check, checkin creation, status write, with the
surrounding `try/except` materialised through the failure oracle.  An
operation that raises performs no effect; effects already performed stay. -/
def process_one (o : Oracle) (s : Store) (log : StagedRecord) : Store :=
  if o log = some FailPoint.atEmployeeLookup then
    log_error s (fail_msg log.name) fail_title
  else
    match get_employee s log.attendance_device_id with
    | some employee =>
      if o log = some FailPoint.atDuplicateCheck then
        log_error s (fail_msg log.name) fail_title
      else if checkin_matches s employee log.timestamp then
        if o log = some FailPoint.atSetDuplicate then
          log_error s (fail_msg log.name) fail_title
        else
          set_status s log.name "Duplicate"
      else
        if o log = some FailPoint.atInsert then
          log_error s (fail_msg log.name) fail_title
        else
          let s1 := insert_checkin s
            ⟨employee, log.timestamp, log.punch_type, log.device_id⟩
          if o log = some FailPoint.atSetProcessed then
            log_error s1 (fail_msg log.name) fail_title
          else
            set_status s1 log.name "Processed"
    | none =>
      if o log = some FailPoint.atSetIgnored then
        log_error s (fail_msg log.name) fail_title
      else
        set_status s log.name "Ignored"

/-- The loop over an explicit list of staged rows. -/
def process_list (o : Oracle) (s : Store) (logs : List StagedRecord) : Store :=
  logs.foldl (process_one o) s

/-- `process_biometric_logs` under a failure oracle: snapshot the pending
rows, process each, commit once at the end. -/
def process_biometric_logs_with (o : Oracle) (s : Store) : Store :=
  db_commit (process_list o s (get_pending s))

/-- The oracle of a run in which no operation raises. -/
def no_fail : Oracle := fun _ => none

/-- Failure points that are reached whenever the record is processed,
regardless of the checkin table's contents: the employee lookup itself,
the duplicate check (when the lookup resolves), and the Ignored status
write (when it does not).  A designated failure at one of these points
makes the record's iteration raise unconditionally. -/
def always_raises (s : Store) (r : StagedRecord) (fp : FailPoint) : Prop :=
  fp = FailPoint.atEmployeeLookup
  ∨ (fp = FailPoint.atDuplicateCheck
      ∧ (get_employee s r.attendance_device_id).isSome = true)
  ∨ (fp = FailPoint.atSetIgnored
      ∧ get_employee s r.attendance_device_id = none)

instance (s : Store) (r : StagedRecord) (fp : FailPoint) :
    Decidable (always_raises s r fp) := by
  unfold always_raises; infer_instance

/-- `process_biometric_logs` (normal run, no framework failures). -/
def process_biometric_logs (s : Store) : Store :=
  process_biometric_logs_with no_fail s

/-- `process_biometric_logs` together with its return value: the Python
function ends without a `return` statement, so it returns `None` —
modelled as `none` where a per-outcome count report would sit. -/
def process_biometric_logs_result (s : Store) : Store × Option (List (String × Nat)) :=
  (process_biometric_logs s, none)

/-- The string returned by `enqueue_process_biometric_logs`. -/
def enqueue_process_biometric_logs : String :=
  "Employee Checkin synchronization has started in the background."

/-- A row of the `User` doctype joined with its `Has Role` children. -/
structure User where
  name : String
  email : Option String
  enabled : Bool
  user_type : String
  roles : List String
deriving DecidableEq, Repr

/-- A row of the `Email Account` doctype (the fields the module reads). -/
structure EmailAccount where
  default_outgoing : Bool
  email_id : Option String
deriving DecidableEq, Repr

/-- The `Communication` document inserted before sending the report. -/
structure Communication where
  communication_type : String
  communication_medium : String
  subject : String
  content : String
  sender : String
  recipients : String
  reference_doctype : String
  status : String
deriving DecidableEq, Repr

/-- One `frappe.sendmail(...)` dispatch. -/
structure SentEmail where
  recipients : List String
  subject : String
  sender : String
  message : String
deriving DecidableEq, Repr

/-- The slice of the document store the exceptional-report generator
touches, plus the console output of its `print` statements. -/
structure RStore where
  staged : List StagedRecord
  users : List User
  email_accounts : List EmailAccount
  errorLog : List (String × String)
  communications : List Communication
  emails : List SentEmail
  printed : List String
deriving DecidableEq, Repr

/-- `get_recipients_by_roles`: distinct emails of enabled System Users
holding any of the given roles, with NULL emails dropped. -/
def get_recipients_by_roles (s : RStore) (roles : List String) : List String :=
  ((s.users.filter (fun u =>
      u.enabled && u.user_type = "System User"
        && u.roles.any (fun r => roles.contains r)
        && u.email.isSome)).filterMap (fun u => u.email)).dedup

/-- The statuses the report SQL selects. -/
def report_statuses : List String := ["Pending", "Ignored", "Processed"]

/-- The `GROUP BY status` rows of the report query: for each selected
status with at least one staged row dated today, its count.
`dateOf` abstracts SQL `DATE(timestamp)` and `today` abstracts `CURDATE()`. -/
def report_rows (today : String) (dateOf : String → String) (s : RStore) :
    List (String × Nat) :=
  report_statuses.filterMap (fun st =>
    let n := (s.staged.filter
      (fun r => r.status = st && dateOf r.timestamp = today)).length
    if n = 0 then none else some (st, n))

/-- The HTML body composed from the report rows. -/
def email_body_of (rows : List (String × Nat)) : String :=
  "<h3>Exceptional Report Summary</h3>"
    ++ "<table border=\x271\x27 style=\x27border-collapse: collapse;\x27>"
    ++ "<tr><th>Status</th><th>Count</th></tr>"
    ++ String.join (rows.map (fun p =>
        "<tr><td>" ++ p.1 ++ "</td><td>" ++ toString p.2 ++ "</td></tr>"))
    ++ "</table>"

/-- `frappe.db.get_value("Email Account", {"default_outgoing": 1}, "email_id")`,
with Python truthiness: a missing account, a NULL email_id and an empty
email_id are all falsy. -/
def default_sender (s : RStore) : Option String :=
  match (s.email_accounts.find? (fun a => a.default_outgoing)).bind
      (fun a => a.email_id) with
  | some e => if e = "" then none else some e
  | none => none

/-- `send_exceptional_report`, translated line by line.  `mail_fails`
says whether the final `frappe.sendmail` raises. -/
def send_exceptional_report (today : String) (dateOf : String → String)
    (mail_fails : Bool) (s : RStore) : RStore :=
  let rows := report_rows today dateOf s
  if rows = [] then
    { s with printed := s.printed ++ ["No exceptional records to report."] }
  else
    let body := email_body_of rows
    let recipients := get_recipients_by_roles s ["System Manager", "HR Manager"]
    if recipients = [] then
      { s with
        errorLog := s.errorLog ++
          [("No recipients found for the exceptional report", "Exceptional Report")],
        printed := s.printed ++ ["No recipients found for the exceptional report."] }
    else
      match default_sender s with
      | none =>
        { s with
          errorLog := s.errorLog ++
            [("No default sender email is configured.", "Exceptional Report")],
          printed := s.printed ++ ["No default sender email is configured."] }
      | some sender =>
        let subject := "Exceptional Report - Biometric Data Staging"
        let comm : Communication :=
          ⟨"Automated Message", "Email", subject, body, sender,
            String.intercalate ", " recipients, "Biometric Data Staging", "Linked"⟩
        let s1 := { s with communications := s.communications ++ [comm] }
        if mail_fails then
          { s1 with
            printed := s1.printed ++ ["Failed to send exceptional report email: error"],
            errorLog := s1.errorLog ++
              [("Failed to send email: error", "Exceptional Report")] }
        else
          { s1 with
            emails := s1.emails ++ [⟨recipients, subject, sender, body⟩],
            printed := s1.printed ++
              ["Exceptional report email sent to: " ++ String.intercalate ", " recipients] }

/-! ### Derived notions used to state the theorems -/

/-- The status the engine assigns to a pending row, as a function of the
store it consults when the row is processed. -/
def outcome_status (s : Store) (r : StagedRecord) : String :=
  match get_employee s r.attendance_device_id with
  | some e =>
    if checkin_matches s e r.timestamp then "Duplicate" else "Processed"
  | none => "Ignored"

/-- The checkin the engine creates for a pending row (if any), as a
function of the store it consults when the row is processed. -/
def created_checkin (s : Store) (r : StagedRecord) : Option Checkin :=
  match get_employee s r.attendance_device_id with
  | some e =>
    if checkin_matches s e r.timestamp then none
    else some ⟨e, r.timestamp, r.punch_type, r.device_id⟩
  | none => none

/-- Rows `a` and `b` do not resolve to the same employee with an equal
timestamp (the duplicate-detection key). -/
def key_distinct (s : Store) (a b : StagedRecord) : Prop :=
  get_employee s a.attendance_device_id = none
  ∨ get_employee s b.attendance_device_id = none
  ∨ get_employee s a.attendance_device_id ≠ get_employee s b.attendance_device_id
  ∨ a.timestamp ≠ b.timestamp

instance (s : Store) : DecidableRel (key_distinct s) := fun a b => by
  unfold key_distinct; infer_instance

/-- No two rows of the batch resolve to the same employee with an equal
timestamp. -/
def distinct_keys (s : Store) (logs : List StagedRecord) : Prop :=
  logs.Pairwise (key_distinct s)

instance (s : Store) (logs : List StagedRecord) : Decidable (distinct_keys s logs) := by
  unfold distinct_keys; infer_instance

/-- Recognize a status write to the record named `n`. -/
def is_status_write (n : String) : Event → Bool
  | .statusWrite m _ => m = n
  | _ => false

/-! ### Concrete sample data -/

def srA : StagedRecord := ⟨"SR-1", "A100", "T1", "IN", "dev1", "Pending"⟩
def srB : StagedRecord := ⟨"SR-2", "A100", "T1", "OUT", "dev2", "Pending"⟩
def srC : StagedRecord := ⟨"SR-3", "ZZZ", "T2", "IN", "dev1", "Pending"⟩
def srD : StagedRecord := ⟨"SR-4", "A100", "T0", "IN", "dev1", "Processed"⟩
def srE : StagedRecord := ⟨"SR-5", "A100", "T0", "OUT", "dev1", "Pending"⟩

def emp1 : Employee := ⟨"EMP-1", "A100"⟩

/-- A store with a to-be-processed row, an unmatched row, an already
processed row and a to-be-marked-duplicate row. -/
def store_main : Store :=
  { staged := [srA, srC, srD, srE]
    employees := [emp1]
    checkins := [⟨"EMP-1", "T0", "IN", "dev1"⟩]
    errorLog := []
    events := [] }

/-- A store with two pending rows resolving to the same employee at the
same timestamp. -/
def store_perm : Store :=
  { staged := [srA, srB]
    employees := [emp1]
    checkins := []
    errorLog := []
    events := [] }

/-- An oracle making the processing of `SR-1` raise at the employee
lookup, all other rows processing normally. -/
def oracle_sr1 : Oracle :=
  fun r => if r.name = "SR-1" then some FailPoint.atEmployeeLookup else none

def rstore_empty : RStore :=
  { staged := [], users := [], email_accounts := [], errorLog := [],
    communications := [], emails := [], printed := [] }

def user_hr : User := ⟨"u1", some "hr@example.com", true, "System User", ["HR Manager"]⟩

/-- Staged data dated today, but no users at all (so no recipients). -/
def rstore_data : RStore :=
  { rstore_empty with
    staged := [⟨"SR-1", "A100", "2026-10-12", "IN", "dev1", "Pending"⟩] }

/-- Staged data and a recipient, but no default outgoing account. -/
def rstore_nosender : RStore :=
  { rstore_data with users := [user_hr] }

/-! ### Basic lemmas about one loop iteration -/

theorem employees_process_one (o : Oracle) (s : Store) (l : StagedRecord) :
    (process_one o s l).employees = s.employees := by
  unfold process_one
  repeat' split
  all_goals rfl

theorem employees_process_list (o : Oracle) (logs : List StagedRecord) :
    ∀ s : Store, (process_list o s logs).employees = s.employees := by
  induction logs with
  | nil => intro s; rfl
  | cons l rest ih =>
    intro s
    show (process_list o (process_one o s l) rest).employees = s.employees
    rw [ih, employees_process_one]

theorem get_employee_congr {s t : Store} (h : s.employees = t.employees)
    (a : String) : get_employee s a = get_employee t a := by
  unfold get_employee; rw [h]

theorem checkins_process_one (o : Oracle) (s : Store) (l : StagedRecord) :
    ∃ tl, (process_one o s l).checkins = s.checkins ++ tl := by
  unfold process_one
  repeat' split
  all_goals first
    | exact ⟨[], (List.append_nil _).symm⟩
    | exact ⟨_, rfl⟩

theorem checkins_process_list (o : Oracle) (logs : List StagedRecord) :
    ∀ s : Store, ∃ tl, (process_list o s logs).checkins = s.checkins ++ tl := by
  induction logs with
  | nil => intro s; exact ⟨[], (List.append_nil _).symm⟩
  | cons l rest ih =>
    intro s
    obtain ⟨t1, h1⟩ := checkins_process_one o s l
    obtain ⟨t2, h2⟩ := ih (process_one o s l)
    exact ⟨t1 ++ t2, by
      show (process_list o (process_one o s l) rest).checkins = _
      rw [h2, h1, List.append_assoc]⟩

theorem errorLog_process_one (o : Oracle) (s : Store) (l : StagedRecord) :
    ∃ tl, (process_one o s l).errorLog = s.errorLog ++ tl := by
  unfold process_one
  repeat' split
  all_goals first
    | exact ⟨[], (List.append_nil _).symm⟩
    | exact ⟨[(fail_msg l.name, fail_title)], by
        simp [insert_checkin, set_status, log_error]⟩

theorem errorLog_process_list (o : Oracle) (logs : List StagedRecord) :
    ∀ s : Store, ∃ tl, (process_list o s logs).errorLog = s.errorLog ++ tl := by
  induction logs with
  | nil => intro s; exact ⟨[], (List.append_nil _).symm⟩
  | cons l rest ih =>
    intro s
    obtain ⟨t1, h1⟩ := errorLog_process_one o s l
    obtain ⟨t2, h2⟩ := ih (process_one o s l)
    exact ⟨t1 ++ t2, by
      show (process_list o (process_one o s l) rest).errorLog = _
      rw [h2, h1, List.append_assoc]⟩

theorem events_process_one (o : Oracle) (s : Store) (l : StagedRecord) :
    ∃ tl, (process_one o s l).events = s.events ++ tl ∧ Event.commit ∉ tl := by
  unfold process_one
  repeat' split
  all_goals first
    | exact ⟨_, rfl, by simp [set_status, insert_checkin, log_error]⟩
    | exact ⟨_, List.append_assoc _ _ _,
        by simp [set_status, insert_checkin, log_error]⟩

theorem events_process_list (o : Oracle) (logs : List StagedRecord) :
    ∀ s : Store, ∃ tl,
      (process_list o s logs).events = s.events ++ tl ∧ Event.commit ∉ tl := by
  induction logs with
  | nil => intro s; exact ⟨[], (List.append_nil _).symm, by simp⟩
  | cons l rest ih =>
    intro s
    obtain ⟨t1, h1, hc1⟩ := events_process_one o s l
    obtain ⟨t2, h2, hc2⟩ := ih (process_one o s l)
    refine ⟨t1 ++ t2, ?_, ?_⟩
    · show (process_list o (process_one o s l) rest).events = _
      rw [h2, h1, List.append_assoc]
    · simp only [List.mem_append]
      rintro (h | h)
      · exact hc1 h
      · exact hc2 h

theorem write_count_process_one (s : Store) (l : StagedRecord) (n : String) :
    ((process_one no_fail s l).events.countP (is_status_write n))
      = s.events.countP (is_status_write n) + (if l.name = n then 1 else 0) := by
  unfold process_one no_fail
  simp only [reduceCtorEq, if_false]
  split
  · split
    · simp [set_status, List.countP_append, List.countP_cons, is_status_write]
    · simp [set_status, insert_checkin, List.countP_append, List.countP_cons,
        is_status_write]
  · simp [set_status, List.countP_append, List.countP_cons, is_status_write]

theorem write_count_process_list (logs : List StagedRecord) (n : String) :
    ∀ s : Store, ((process_list no_fail s logs).events.countP (is_status_write n))
      = s.events.countP (is_status_write n)
        + (logs.map (fun r => r.name)).count n := by
  induction logs with
  | nil => intro s; simp [process_list]
  | cons l rest ih =>
    intro s
    show ((process_list no_fail (process_one no_fail s l) rest).events.countP _) = _
    rw [ih, write_count_process_one]
    simp only [List.map_cons, List.count_cons]
    by_cases h : l.name = n
    · simp [h]; omega
    · have h' : ¬(n = l.name) := fun e => h e.symm
      simp [h, h']

theorem staged_process_one_cases (o : Oracle) (s : Store) (l : StagedRecord) :
    (process_one o s l).staged = s.staged
      ∨ ∃ v, v ≠ "Pending"
          ∧ (process_one o s l).staged = s.staged.map (status_update l.name v) := by
  unfold process_one
  repeat' split
  all_goals first
    | exact Or.inl rfl
    | exact Or.inr ⟨"Duplicate", by decide, rfl⟩
    | exact Or.inr ⟨"Processed", by decide, rfl⟩
    | exact Or.inr ⟨"Ignored", by decide, rfl⟩

theorem staged_process_one_none (o : Oracle) (s : Store) (l : StagedRecord)
    (h : o l = none) :
    ∃ v, v ≠ "Pending"
      ∧ (process_one o s l).staged = s.staged.map (status_update l.name v) := by
  unfold process_one
  rw [h]
  simp only [reduceCtorEq, if_false]
  split
  · split
    · exact ⟨"Duplicate", by decide, rfl⟩
    · exact ⟨"Processed", by decide, rfl⟩
  · exact ⟨"Ignored", by decide, rfl⟩

theorem staged_length_process_one (o : Oracle) (s : Store) (l : StagedRecord) :
    (process_one o s l).staged.length = s.staged.length := by
  rcases staged_process_one_cases o s l with h | ⟨v, _, h⟩
  · rw [h]
  · rw [h, List.length_map]

theorem staged_length_process_list (o : Oracle) (logs : List StagedRecord) :
    ∀ s : Store, (process_list o s logs).staged.length = s.staged.length := by
  induction logs with
  | nil => intro s; rfl
  | cons l rest ih =>
    intro s
    show (process_list o (process_one o s l) rest).staged.length = _
    rw [ih, staged_length_process_one]

theorem status_update_ne {nm v : String} {r : StagedRecord} (h : ¬r.name = nm) :
    status_update nm v r = r := by
  unfold status_update
  rw [if_neg h]

theorem untouched_process_list (o : Oracle) (logs : List StagedRecord) :
    ∀ s : Store, ∀ y ∈ s.staged, y.name ∉ logs.map (fun r => r.name) →
      y ∈ (process_list o s logs).staged := by
  induction logs with
  | nil => intro s y hy _; exact hy
  | cons l rest ih =>
    intro s y hy hn
    simp only [List.map_cons, List.mem_cons, not_or] at hn
    have hy1 : y ∈ (process_one o s l).staged := by
      rcases staged_process_one_cases o s l with h | ⟨v, _, h⟩
      · rw [h]; exact hy
      · rw [h]
        have := List.mem_map_of_mem (status_update l.name v) hy
        rwa [status_update_ne hn.1] at this
    exact ih (process_one o s l) y hy1 hn.2

/-! ### After one pass, nothing is pending any more -/

theorem no_pending_after (logs : List StagedRecord) :
    ∀ s : Store,
      (∀ r ∈ s.staged, r.status = "Pending" → r.name ∈ logs.map (fun r => r.name)) →
      ∀ r ∈ (process_list no_fail s logs).staged, ¬ r.status = "Pending" := by
  induction logs with
  | nil =>
    intro s hp r hr hst
    exact absurd (hp r hr hst) (by simp)
  | cons l rest ih =>
    intro s hp
    obtain ⟨v, hv, hstg⟩ := staged_process_one_none no_fail s l rfl
    refine ih (process_one no_fail s l) ?_
    intro r hr hst
    rw [hstg] at hr
    obtain ⟨r0, hr0, hupd⟩ := List.mem_map.mp hr
    by_cases hn : r0.name = l.name
    · exfalso
      rw [← hupd] at hst
      unfold status_update at hst
      rw [if_pos hn] at hst
      exact hv hst
    · rw [status_update_ne hn] at hupd
      rw [← hupd] at hst ⊢
      have := hp r0 hr0 hst
      simp only [List.map_cons, List.mem_cons] at this
      rcases this with h | h
      · exact absurd h hn
      · exact h

theorem get_pending_after (s : Store) :
    get_pending (process_biometric_logs s) = [] := by
  unfold get_pending
  rw [List.filter_eq_nil_iff]
  intro r hr
  have hr' : r ∈ (process_list no_fail s (get_pending s)).staged := hr
  have := no_pending_after (get_pending s) s ?_ r hr'
  · simpa using this
  · intro r' hr' hst
    refine List.mem_map.mpr ⟨r', ?_, rfl⟩
    exact List.mem_filter.mpr ⟨hr', by simp [hst]⟩

theorem run_on_no_pending {s : Store} (h : get_pending s = []) :
    process_biometric_logs s = db_commit s := by
  unfold process_biometric_logs process_biometric_logs_with
  rw [h]
  rfl

theorem key_distinct_apply {s : Store} {a b : StagedRecord}
    (h : key_distinct s a b) {e : String}
    (ha : get_employee s a.attendance_device_id = some e)
    (hb : get_employee s b.attendance_device_id = some e) :
    a.timestamp ≠ b.timestamp := by
  rcases h with h | h | h | h
  · rw [ha] at h; exact Option.noConfusion h
  · rw [hb] at h; exact Option.noConfusion h
  · exact absurd (by rw [ha, hb]) h
  · exact h

theorem key_distinct_symm (s : Store) : Symmetric (key_distinct s) := by
  intro a b h
  rcases h with h | h | h | h
  · exact Or.inr (Or.inl h)
  · exact Or.inl h
  · exact Or.inr (Or.inr (Or.inl (Ne.symm h)))
  · exact Or.inr (Or.inr (Or.inr (Ne.symm h)))

/-! ### Characterization of one pass against the store it started from -/

theorem checkin_matches_extra {s0 s : Store} {extra : List Checkin}
    (hC : s.checkins = s0.checkins ++ extra) {e t : String}
    (hx : ∀ c ∈ extra, ¬(c.employee = e ∧ c.time = t)) :
    checkin_matches s e t = checkin_matches s0 e t := by
  unfold checkin_matches
  rw [hC, List.any_append]
  have hz : extra.any (fun c => c.employee = e && c.time = t) = false := by
    rw [List.any_eq_false]
    intro c hc hcc
    simp only [Bool.and_eq_true, decide_eq_true_eq] at hcc
    exact hx c hc hcc
  rw [hz, Bool.or_false]

theorem process_one_char (s0 s : Store) (l : StagedRecord)
    (extra : List Checkin)
    (hE : s.employees = s0.employees)
    (hC : s.checkins = s0.checkins ++ extra)
    (hx : ∀ c ∈ extra, ∀ e, get_employee s0 l.attendance_device_id = some e →
        ¬(c.employee = e ∧ c.time = l.timestamp)) :
    (process_one no_fail s l).staged
        = s.staged.map (status_update l.name (outcome_status s0 l))
      ∧ (process_one no_fail s l).checkins
        = s.checkins ++ (created_checkin s0 l).toList := by
  have hge : get_employee s l.attendance_device_id
      = get_employee s0 l.attendance_device_id := get_employee_congr hE _
  unfold process_one no_fail
  simp only [reduceCtorEq, if_false]
  rw [hge]
  cases h0 : get_employee s0 l.attendance_device_id with
  | none =>
    simp only [outcome_status, created_checkin, h0]
    exact ⟨rfl, by simp [set_status]⟩
  | some e =>
    have hm : checkin_matches s e l.timestamp = checkin_matches s0 e l.timestamp :=
      checkin_matches_extra hC (fun c hc => hx c hc e h0)
    simp only [outcome_status, created_checkin, h0, hm]
    cases hd : checkin_matches s0 e l.timestamp with
    | true =>
      simp only [if_true, if_pos]
      exact ⟨rfl, by simp [set_status]⟩
    | false =>
      simp only [Bool.false_eq_true, if_false, if_neg]
      exact ⟨rfl, by simp [set_status, insert_checkin]⟩

theorem process_list_char (s0 : Store) :
    ∀ (logs : List StagedRecord) (s : Store) (extra : List Checkin),
      s.employees = s0.employees →
      s.checkins = s0.checkins ++ extra →
      (∀ c ∈ extra, ∀ l ∈ logs, ∀ e,
          get_employee s0 l.attendance_device_id = some e →
          ¬(c.employee = e ∧ c.time = l.timestamp)) →
      distinct_keys s0 logs →
      (logs.map (fun r => r.name)).Nodup →
      (process_list no_fail s logs).staged
          = s.staged.map (fun r =>
              match logs.find? (fun l => l.name = r.name) with
              | some l => { r with status := outcome_status s0 l }
              | none => r)
        ∧ (process_list no_fail s logs).checkins
          = s.checkins ++ logs.filterMap (created_checkin s0) := by
  intro logs
  induction logs with
  | nil =>
    intro s extra _hE _hC _hx _hdk _hnd
    constructor
    · show s.staged = _
      simp
    · show s.checkins = _
      simp
  | cons l rest ih =>
    intro s extra hE hC hx hdk hnd
    obtain ⟨hstg, hchk⟩ := process_one_char s0 s l extra hE hC
      (fun c hc e he => hx c hc l (List.mem_cons_self l rest) e he)
    have hE1 : (process_one no_fail s l).employees = s0.employees := by
      rw [employees_process_one]; exact hE
    have hC1 : (process_one no_fail s l).checkins
        = s0.checkins ++ (extra ++ (created_checkin s0 l).toList) := by
      rw [hchk, hC, List.append_assoc]
    have hx1 : ∀ c ∈ extra ++ (created_checkin s0 l).toList, ∀ l' ∈ rest, ∀ e,
        get_employee s0 l'.attendance_device_id = some e →
        ¬(c.employee = e ∧ c.time = l'.timestamp) := by
      intro c hc l' hl' e' he' hcc
      rcases List.mem_append.mp hc with hcx | hcl
      · exact hx c hcx l' (List.mem_cons_of_mem l hl') e' he' hcc
      · have hcrel : created_checkin s0 l = some c := by
          cases hcr : created_checkin s0 l with
          | none => rw [hcr] at hcl; simp at hcl
          | some c' => rw [hcr] at hcl; simp at hcl; rw [hcl]
        have hkey : ∃ e0, get_employee s0 l.attendance_device_id = some e0
            ∧ c = ⟨e0, l.timestamp, l.punch_type, l.device_id⟩ := by
          unfold created_checkin at hcrel
          cases h0 : get_employee s0 l.attendance_device_id with
          | none => simp [h0] at hcrel
          | some e0 =>
            simp only [h0] at hcrel
            by_cases hdup : checkin_matches s0 e0 l.timestamp = true
            · simp [hdup] at hcrel
            · rw [if_neg hdup] at hcrel
              exact ⟨e0, rfl, (Option.some.inj hcrel).symm⟩
        obtain ⟨e0, h0, hcval⟩ := hkey
        rw [hcval] at hcc
        simp only at hcc
        have hrel := (List.pairwise_cons.mp hdk).1 l' hl'
        exact key_distinct_apply hrel (hcc.1 ▸ h0) he' hcc.2
    have hdk1 : distinct_keys s0 rest := (List.pairwise_cons.mp hdk).2
    have hnd1 : (rest.map (fun r => r.name)).Nodup := by
      simp only [List.map_cons, List.nodup_cons] at hnd
      exact hnd.2
    have hlnm : l.name ∉ rest.map (fun r => r.name) := by
      simp only [List.map_cons, List.nodup_cons] at hnd
      exact hnd.1
    obtain ⟨ih1, ih2⟩ := ih (process_one no_fail s l)
      (extra ++ (created_checkin s0 l).toList) hE1 hC1 hx1 hdk1 hnd1
    constructor
    · show (process_list no_fail (process_one no_fail s l) rest).staged = _
      rw [ih1, hstg, List.map_map]
      apply List.map_congr_left
      intro r _hr
      simp only [Function.comp]
      by_cases hn : r.name = l.name
      · have hupd : status_update l.name (outcome_status s0 l) r
            = { r with status := outcome_status s0 l } := by
          unfold status_update; rw [if_pos hn]
        rw [hupd]
        have hfr : rest.find? (fun x => x.name
            = ({ r with status := outcome_status s0 l } : StagedRecord).name)
            = none := by
          rw [List.find?_eq_none]
          intro x hxr hxe
          simp only [decide_eq_true_eq] at hxe
          exact hlnm (List.mem_map.mpr ⟨x, hxr, by rw [hxe, hn]⟩)
        rw [hfr, List.find?_cons_of_pos _ (by simp [hn])]
      · rw [status_update_ne hn,
          List.find?_cons_of_neg _
            (by simp only [decide_eq_true_eq]; exact fun h => hn h.symm)]
    · show (process_list no_fail (process_one no_fail s l) rest).checkins = _
      rw [ih2, hchk, List.append_assoc]
      congr 1
      cases hcr : created_checkin s0 l with
      | none => simp [List.filterMap_cons, hcr]
      | some c => simp [List.filterMap_cons, hcr]

/-! ### Name-based frame helpers -/

theorem nonpending_name_notin_pending {s : Store}
    (hnd : (s.staged.map (fun r => r.name)).Nodup) {r : StagedRecord}
    (hr : r ∈ s.staged) (hst : ¬ r.status = "Pending") :
    r.name ∉ (get_pending s).map (fun r => r.name) := by
  intro hmem
  obtain ⟨p, hp, hnm⟩ := List.mem_map.mp hmem
  have hp' := List.mem_filter.mp hp
  have : p = r := List.inj_on_of_nodup_map hnd hp'.1 hr hnm
  rw [this] at hp'
  exact hst (by simpa using hp'.2)

theorem pending_names_nodup {s : Store}
    (hnd : (s.staged.map (fun r => r.name)).Nodup) :
    ((get_pending s).map (fun r => r.name)).Nodup :=
  ((List.filter_sublist s.staged).map (fun r => r.name)).nodup hnd

/-! ### Outcome and creation helpers -/

theorem outcome_status_processed {s : Store} {l : StagedRecord} {e : String}
    (he : get_employee s l.attendance_device_id = some e)
    (hd : checkin_matches s e l.timestamp = false) :
    outcome_status s l = "Processed" := by
  unfold outcome_status; simp [he, hd]

theorem outcome_status_duplicate {s : Store} {l : StagedRecord} {e : String}
    (he : get_employee s l.attendance_device_id = some e)
    (hd : checkin_matches s e l.timestamp = true) :
    outcome_status s l = "Duplicate" := by
  unfold outcome_status; simp [he, hd]

theorem outcome_status_ignored {s : Store} {l : StagedRecord}
    (he : get_employee s l.attendance_device_id = none) :
    outcome_status s l = "Ignored" := by
  unfold outcome_status; simp [he]

theorem created_checkin_new {s : Store} {l : StagedRecord} {e : String}
    (he : get_employee s l.attendance_device_id = some e)
    (hd : checkin_matches s e l.timestamp = false) :
    created_checkin s l = some ⟨e, l.timestamp, l.punch_type, l.device_id⟩ := by
  unfold created_checkin; simp [he, hd]

theorem created_checkin_dup {s : Store} {l : StagedRecord} {e : String}
    (he : get_employee s l.attendance_device_id = some e)
    (hd : checkin_matches s e l.timestamp = true) :
    created_checkin s l = none := by
  unfold created_checkin; simp [he, hd]

theorem created_checkin_unmatched {s : Store} {l : StagedRecord}
    (he : get_employee s l.attendance_device_id = none) :
    created_checkin s l = none := by
  unfold created_checkin; simp [he]

theorem created_checkin_eq {s0 : Store} {r : StagedRecord} {c : Checkin}
    (h : created_checkin s0 r = some c) :
    get_employee s0 r.attendance_device_id = some c.employee
      ∧ c.time = r.timestamp ∧ c.log_type = r.punch_type
      ∧ c.device_id = r.device_id := by
  unfold created_checkin at h
  cases h0 : get_employee s0 r.attendance_device_id with
  | none => simp [h0] at h
  | some e0 =>
    simp only [h0] at h
    by_cases hdup : checkin_matches s0 e0 r.timestamp = true
    · simp [hdup] at h
    · rw [if_neg hdup] at h
      have hc := Option.some.inj h
      rw [← hc]
      exact ⟨rfl, rfl, rfl, rfl⟩

theorem created_filterMap_nodup (s0 : Store) :
    ∀ logs : List StagedRecord, distinct_keys s0 logs →
      (logs.filterMap (created_checkin s0)).Nodup := by
  intro logs
  induction logs with
  | nil => intro _; simp
  | cons l rest ih =>
    intro hdk
    rw [List.filterMap_cons]
    cases hcr : created_checkin s0 l with
    | none => exact ih (List.pairwise_cons.mp hdk).2
    | some c =>
      rw [List.nodup_cons]
      refine ⟨?_, ih (List.pairwise_cons.mp hdk).2⟩
      intro hmem
      obtain ⟨b, hb, hbc⟩ := List.mem_filterMap.mp hmem
      obtain ⟨hce, hct, _, _⟩ := created_checkin_eq hcr
      obtain ⟨hbe, hbt, _, _⟩ := created_checkin_eq hbc
      have hrel := (List.pairwise_cons.mp hdk).1 b hb
      exact key_distinct_apply hrel hce hbe (by rw [← hct, ← hbt])

theorem no_created_with_key {s : Store} {logs : List StagedRecord}
    (hdk : distinct_keys s logs) {l : StagedRecord} (hl : l ∈ logs) {e : String}
    (he : get_employee s l.attendance_device_id = some e)
    (hd : checkin_matches s e l.timestamp = true) :
    ∀ c ∈ logs.filterMap (created_checkin s),
      ¬(c.employee = e ∧ c.time = l.timestamp) := by
  intro c hc hcc
  obtain ⟨b, hb, hbc⟩ := List.mem_filterMap.mp hc
  obtain ⟨hbe, hbt, _, _⟩ := created_checkin_eq hbc
  by_cases hbl : b = l
  · rw [hbl] at hbc
    rw [created_checkin_dup he hd] at hbc
    exact Option.noConfusion hbc
  · have hrel := hdk.forall (key_distinct_symm s) hb hl hbl
    refine key_distinct_apply hrel (by rw [hbe, hcc.1]) he ?_
    rw [← hbt, hcc.2]

/-- The unique element of `logs` carrying its own name, when names are unique. -/
theorem find?_self_of_nodup {logs : List StagedRecord}
    (hnd : (logs.map (fun r => r.name)).Nodup) {l : StagedRecord} (hl : l ∈ logs) :
    logs.find? (fun x => x.name = l.name) = some l := by
  cases hf : logs.find? (fun x => x.name = l.name) with
  | none =>
    rw [List.find?_eq_none] at hf
    exact absurd (by simp) (hf l hl)
  | some b =>
    have hb := List.find?_some hf
    have hbm := List.mem_of_find?_eq_some hf
    have : b = l := List.inj_on_of_nodup_map hnd hbm hl (by simpa using hb)
    rw [this]

theorem find?_eq_of_perm {α : Type} {p : α → Bool} {l l' : List α}
    (hp : l.Perm l') (huniq : ∀ a ∈ l, ∀ b ∈ l, p a → p b → a = b) :
    l.find? p = l'.find? p := by
  cases hf : l.find? p with
  | none =>
    rw [List.find?_eq_none] at hf
    symm
    rw [List.find?_eq_none]
    intro x hx
    exact hf x (hp.symm.subset hx)
  | some a =>
    have ha := List.find?_some hf
    have ham := List.mem_of_find?_eq_some hf
    cases hf' : l'.find? p with
    | none =>
      rw [List.find?_eq_none] at hf'
      exact absurd ha (hf' a (hp.subset ham))
    | some b =>
      have hb := List.find?_some hf'
      have hbm := List.mem_of_find?_eq_some hf'
      rw [huniq a ham b (hp.symm.subset hbm) ha hb]

/-- The whole pass, characterized against the initial store when the pending
rows carry pairwise-distinct names and duplicate-detection keys. -/
theorem reconcile_char (s : Store)
    (hnd : (s.staged.map (fun r => r.name)).Nodup)
    (hdk : distinct_keys s (get_pending s)) :
    (process_biometric_logs s).staged
        = s.staged.map (fun r =>
            match (get_pending s).find? (fun l => l.name = r.name) with
            | some l => { r with status := outcome_status s l }
            | none => r)
      ∧ (process_biometric_logs s).checkins
        = s.checkins ++ (get_pending s).filterMap (created_checkin s) := by
  have h := process_list_char s (get_pending s) s [] rfl (by simp) (by simp)
    hdk (pending_names_nodup hnd)
  exact ⟨h.1, h.2⟩

/-- A row with no employee match ends Ignored, whatever else is in the
batch (no key-distinctness needed: the lookup consults only the employees
table, which the pass never writes). -/
theorem ignored_process_list (logs : List StagedRecord) :
    ∀ s : Store, ∀ r ∈ logs, (logs.map (fun x => x.name)).Nodup →
      get_employee s r.attendance_device_id = none →
      ∀ x ∈ s.staged, x.name = r.name →
        { x with status := "Ignored" } ∈ (process_list no_fail s logs).staged := by
  induction logs with
  | nil =>
    intro s r hr
    simp at hr
  | cons l rest ih =>
    intro s r hr hnd hge x hx hxn
    have hndr : (rest.map (fun x => x.name)).Nodup := by
      simp only [List.map_cons, List.nodup_cons] at hnd; exact hnd.2
    have hlnm : l.name ∉ rest.map (fun x => x.name) := by
      simp only [List.map_cons, List.nodup_cons] at hnd; exact hnd.1
    rcases List.mem_cons.mp hr with hrl | hrr
    · subst hrl
      obtain ⟨hstg, _⟩ := process_one_char s s r [] rfl (by simp) (by simp)
      rw [outcome_status_ignored hge] at hstg
      show _ ∈ (process_list no_fail (process_one no_fail s r) rest).staged
      apply untouched_process_list no_fail rest (process_one no_fail s r)
      · rw [hstg]
        have hmem := List.mem_map_of_mem (status_update r.name "Ignored") hx
        rwa [show status_update r.name "Ignored" x = { x with status := "Ignored" }
          from by unfold status_update; rw [if_pos hxn]] at hmem
      · show ({ x with status := "Ignored" } : StagedRecord).name ∉ _
        simpa [hxn] using hlnm
    · have hge1 : get_employee (process_one no_fail s l) r.attendance_device_id
          = none := by
        rw [get_employee_congr (employees_process_one no_fail s l)
          r.attendance_device_id]
        exact hge
      obtain ⟨v, _, hstg⟩ := staged_process_one_none no_fail s l rfl
      have hx1 : status_update l.name v x ∈ (process_one no_fail s l).staged := by
        rw [hstg]; exact List.mem_map_of_mem _ hx
      have hn1 : (status_update l.name v x).name = r.name := by
        unfold status_update; split <;> simpa using hxn
      have heq : ({ status_update l.name v x with status := "Ignored" } : StagedRecord)
          = { x with status := "Ignored" } := by
        unfold status_update; split <;> rfl
      have hfin := ih (process_one no_fail s l) r hrr hndr hge1
        (status_update l.name v x) hx1 hn1
      rwa [heq] at hfin

/-! ### Failure isolation helpers -/

theorem process_one_raises {o : Oracle} {s : Store} {l : StagedRecord}
    {fp : FailPoint} (hfp : o l = some fp) (htrig : always_raises s l fp) :
    process_one o s l = log_error s (fail_msg l.name) fail_title := by
  unfold process_one
  rcases htrig with h | ⟨h, hx⟩ | ⟨h, hx⟩
  · subst h
    rw [if_pos hfp]
  · subst h
    obtain ⟨e, he⟩ := Option.isSome_iff_exists.mp hx
    simp [hfp, he]
  · subst h
    simp [hfp, hx]

theorem always_raises_congr {s t : Store} (h : t.employees = s.employees)
    {r : StagedRecord} {fp : FailPoint} :
    always_raises s r fp → always_raises t r fp := by
  unfold always_raises
  rw [get_employee_congr h r.attendance_device_id]
  exact id

theorem process_list_fail (o : Oracle) (logs : List StagedRecord) :
    ∀ s : Store, ∀ r ∈ logs, ∀ fp : FailPoint, o r = some fp →
      always_raises s r fp →
      (logs.map (fun x => x.name)).Nodup →
      ∀ x ∈ s.staged, x.name = r.name →
        x ∈ (process_list o s logs).staged
        ∧ (fail_msg r.name, fail_title) ∈ (process_list o s logs).errorLog := by
  induction logs with
  | nil =>
    intro s r hr
    simp at hr
  | cons l rest ih =>
    intro s r hr fp hfp htrig hnd x hx hxn
    have hndr : (rest.map (fun x => x.name)).Nodup := by
      simp only [List.map_cons, List.nodup_cons] at hnd; exact hnd.2
    have hlnm : l.name ∉ rest.map (fun x => x.name) := by
      simp only [List.map_cons, List.nodup_cons] at hnd; exact hnd.1
    rcases List.mem_cons.mp hr with hrl | hrr
    · subst hrl
      have hstep := process_one_raises hfp htrig
      constructor
      · show x ∈ (process_list o (process_one o s r) rest).staged
        apply untouched_process_list o rest (process_one o s r)
        · rw [hstep]; exact hx
        · rw [hxn]; exact hlnm
      · show _ ∈ (process_list o (process_one o s r) rest).errorLog
        obtain ⟨tl, htl⟩ := errorLog_process_list o rest (process_one o s r)
        rw [htl, hstep]
        simp [log_error]
    · have htrig1 : always_raises (process_one o s l) r fp :=
        always_raises_congr (employees_process_one o s l) htrig
      have hx1 : x ∈ (process_one o s l).staged := by
        rcases staged_process_one_cases o s l with h | ⟨v, _, h⟩
        · rw [h]; exact hx
        · rw [h]
          have hxl : ¬x.name = l.name := by
            intro hcontra
            apply hlnm
            rw [← hcontra, hxn]
            exact List.mem_map_of_mem _ hrr
          have hmem := List.mem_map_of_mem (status_update l.name v) hx
          rwa [status_update_ne hxl] at hmem
      exact ih (process_one o s l) r hrr fp hfp htrig1 hndr x hx1 hxn

theorem process_list_ok (o : Oracle) (logs : List StagedRecord) :
    ∀ s : Store, ∀ r ∈ logs, o r = none →
      (logs.map (fun x => x.name)).Nodup →
      ∀ x ∈ s.staged, x.name = r.name →
        ∃ v, ¬v = "Pending"
          ∧ { x with status := v } ∈ (process_list o s logs).staged := by
  induction logs with
  | nil =>
    intro s r hr
    simp at hr
  | cons l rest ih =>
    intro s r hr ho hnd x hx hxn
    have hndr : (rest.map (fun x => x.name)).Nodup := by
      simp only [List.map_cons, List.nodup_cons] at hnd; exact hnd.2
    have hlnm : l.name ∉ rest.map (fun x => x.name) := by
      simp only [List.map_cons, List.nodup_cons] at hnd; exact hnd.1
    rcases List.mem_cons.mp hr with hrl | hrr
    · subst hrl
      obtain ⟨v, hv, hstg⟩ := staged_process_one_none o s r ho
      refine ⟨v, hv, ?_⟩
      show _ ∈ (process_list o (process_one o s r) rest).staged
      apply untouched_process_list o rest (process_one o s r)
      · rw [hstg]
        have hmem := List.mem_map_of_mem (status_update r.name v) hx
        rwa [show status_update r.name v x = { x with status := v }
          from by unfold status_update; rw [if_pos hxn]] at hmem
      · show ({ x with status := v } : StagedRecord).name ∉ _
        simpa [hxn] using hlnm
    · rcases staged_process_one_cases o s l with h | ⟨v', _, h⟩
      · exact ih (process_one o s l) r hrr ho hndr x (by rw [h]; exact hx) hxn
      · have hx1 : status_update l.name v' x ∈ (process_one o s l).staged := by
          rw [h]; exact List.mem_map_of_mem _ hx
        have hn1 : (status_update l.name v' x).name = r.name := by
          unfold status_update; split <;> simpa using hxn
        obtain ⟨v, hv, hmem⟩ := ih (process_one o s l) r hrr ho hndr
          (status_update l.name v' x) hx1 hn1
        refine ⟨v, hv, ?_⟩
        have heq : ({ status_update l.name v' x with status := v } : StagedRecord)
            = { x with status := v } := by
          unfold status_update; split <;> rfl
        rwa [heq] at hmem

/-! ### Claim theorems -/

/-- Claim C1: a pending row that resolves to employee `e` and has no
checkin at `(e, timestamp)` in the store consulted where it is processed
gets exactly one new checkin carrying its fields, and its status becomes
Processed; at pass level (unique row names, pairwise-distinct keys) the
same holds measured against the initial store, with the new checkin
appearing exactly once. -/
theorem reconcile_processes_new (s : Store) (l : StagedRecord) (e : String)
    (hnd : (s.staged.map (fun x => x.name)).Nodup)
    (hdk : distinct_keys s (get_pending s))
    (hl : l ∈ get_pending s)
    (he : get_employee s l.attendance_device_id = some e)
    (hd : checkin_matches s e l.timestamp = false) :
    ((process_one no_fail s l).checkins
        = s.checkins ++ [⟨e, l.timestamp, l.punch_type, l.device_id⟩])
    ∧ ((process_one no_fail s l).staged
        = s.staged.map (status_update l.name "Processed"))
    ∧ ({ l with status := "Processed" } ∈ (process_biometric_logs s).staged)
    ∧ ((process_biometric_logs s).checkins.count
          ⟨e, l.timestamp, l.punch_type, l.device_id⟩
        = s.checkins.count ⟨e, l.timestamp, l.punch_type, l.device_id⟩ + 1) := by
  have hls : l ∈ s.staged := (List.mem_filter.mp hl).1
  obtain ⟨h1, h2⟩ := process_one_char s s l [] rfl (by simp) (by simp)
  obtain ⟨hcs, hcc⟩ := reconcile_char s hnd hdk
  refine ⟨?_, ?_, ?_, ?_⟩
  · rw [h2, created_checkin_new he hd]
    rfl
  · rw [h1, outcome_status_processed he hd]
  · rw [hcs]
    have hfind : (get_pending s).find? (fun x => x.name = l.name) = some l :=
      find?_self_of_nodup (pending_names_nodup hnd) hl
    have hFl : (fun r =>
        match (get_pending s).find? (fun x => x.name = r.name) with
        | some l' => { r with status := outcome_status s l' }
        | none => r) l = { l with status := "Processed" } := by
      simp only [hfind, outcome_status_processed he hd]
    exact hFl ▸ List.mem_map_of_mem _ hls
  · rw [hcc, List.count_append]
    have hnodup := created_filterMap_nodup s (get_pending s) hdk
    have hmem : (⟨e, l.timestamp, l.punch_type, l.device_id⟩ : Checkin)
        ∈ (get_pending s).filterMap (created_checkin s) :=
      List.mem_filterMap.mpr ⟨l, hl, created_checkin_new he hd⟩
    rw [List.count_eq_one_of_mem hnodup hmem]

/-- Witness for C1: `SR-1` in `store_main`. -/
theorem reconcile_processes_new_witness :
    ((store_main.staged.map (fun x => x.name)).Nodup
      ∧ distinct_keys store_main (get_pending store_main)
      ∧ srA ∈ get_pending store_main
      ∧ get_employee store_main srA.attendance_device_id = some "EMP-1"
      ∧ checkin_matches store_main "EMP-1" srA.timestamp = false)
    ∧ ({ srA with status := "Processed" } ∈ (process_biometric_logs store_main).staged) :=
  ⟨⟨by decide, by decide, by decide, by decide, by decide⟩,
    (reconcile_processes_new store_main srA "EMP-1" (by decide) (by decide)
      (by decide) (by decide) (by decide)).2.2.1⟩

/-- Claim C2: a pending row whose matched employee already has a checkin
at the row's timestamp in the store consulted where it is processed is
marked Duplicate and creates nothing; the duplicate check precedes
creation, so no checkin with that key is ever added (pass level, under
unique names and distinct keys). -/
theorem reconcile_marks_duplicate (s : Store) (l : StagedRecord) (e : String)
    (hnd : (s.staged.map (fun x => x.name)).Nodup)
    (hdk : distinct_keys s (get_pending s))
    (hl : l ∈ get_pending s)
    (he : get_employee s l.attendance_device_id = some e)
    (hd : checkin_matches s e l.timestamp = true) :
    ((process_one no_fail s l).checkins = s.checkins)
    ∧ ((process_one no_fail s l).staged
        = s.staged.map (status_update l.name "Duplicate"))
    ∧ ({ l with status := "Duplicate" } ∈ (process_biometric_logs s).staged)
    ∧ ((process_biometric_logs s).checkins.countP
          (fun c => c.employee = e && c.time = l.timestamp)
        = s.checkins.countP (fun c => c.employee = e && c.time = l.timestamp)) := by
  have hls : l ∈ s.staged := (List.mem_filter.mp hl).1
  obtain ⟨h1, h2⟩ := process_one_char s s l [] rfl (by simp) (by simp)
  obtain ⟨hcs, hcc⟩ := reconcile_char s hnd hdk
  refine ⟨?_, ?_, ?_, ?_⟩
  · rw [h2, created_checkin_dup he hd]
    simp
  · rw [h1, outcome_status_duplicate he hd]
  · rw [hcs]
    have hfind : (get_pending s).find? (fun x => x.name = l.name) = some l :=
      find?_self_of_nodup (pending_names_nodup hnd) hl
    have hFl : (fun r =>
        match (get_pending s).find? (fun x => x.name = r.name) with
        | some l' => { r with status := outcome_status s l' }
        | none => r) l = { l with status := "Duplicate" } := by
      simp only [hfind, outcome_status_duplicate he hd]
    exact hFl ▸ List.mem_map_of_mem _ hls
  · rw [hcc, List.countP_append]
    have hzero : ((get_pending s).filterMap (created_checkin s)).countP
        (fun c => c.employee = e && c.time = l.timestamp) = 0 := by
      rw [List.countP_eq_zero]
      intro c hc hcp
      simp only [Bool.and_eq_true, decide_eq_true_eq] at hcp
      exact no_created_with_key hdk hl he hd c hc hcp
    rw [hzero, Nat.add_zero]

/-- Witness for C2: `SR-5` in `store_main` (its employee already has a
checkin at `T0`). -/
theorem reconcile_marks_duplicate_witness :
    ((store_main.staged.map (fun x => x.name)).Nodup
      ∧ distinct_keys store_main (get_pending store_main)
      ∧ srE ∈ get_pending store_main
      ∧ get_employee store_main srE.attendance_device_id = some "EMP-1"
      ∧ checkin_matches store_main "EMP-1" srE.timestamp = true)
    ∧ ({ srE with status := "Duplicate" } ∈ (process_biometric_logs store_main).staged) :=
  ⟨⟨by decide, by decide, by decide, by decide, by decide⟩,
    (reconcile_marks_duplicate store_main srE "EMP-1" (by decide) (by decide)
      (by decide) (by decide) (by decide)).2.2.1⟩

/-- Claim C3: a pending row whose attendance_device_id matches no
employee is marked Ignored and creates no checkin. -/
theorem reconcile_ignores_unmatched (s : Store) (r : StagedRecord)
    (hnd : (s.staged.map (fun x => x.name)).Nodup)
    (hr : r ∈ get_pending s)
    (hge : get_employee s r.attendance_device_id = none) :
    ({ r with status := "Ignored" } ∈ (process_biometric_logs s).staged)
    ∧ ((process_one no_fail s r).checkins = s.checkins)
    ∧ ((process_one no_fail s r).staged
        = s.staged.map (status_update r.name "Ignored")) := by
  have hrs : r ∈ s.staged := (List.mem_filter.mp hr).1
  obtain ⟨h1, h2⟩ := process_one_char s s r [] rfl (by simp) (by simp)
  refine ⟨?_, ?_, ?_⟩
  · show _ ∈ (process_list no_fail s (get_pending s)).staged
    exact ignored_process_list (get_pending s) s r hr (pending_names_nodup hnd)
      hge r hrs rfl
  · rw [h2, created_checkin_unmatched hge]
    simp
  · rw [h1, outcome_status_ignored hge]

/-- Witness for C3: `SR-3` in `store_main` (device id `ZZZ` unmatched). -/
theorem reconcile_ignores_unmatched_witness :
    ((store_main.staged.map (fun x => x.name)).Nodup
      ∧ srC ∈ get_pending store_main
      ∧ get_employee store_main srC.attendance_device_id = none)
    ∧ ({ srC with status := "Ignored" } ∈ (process_biometric_logs store_main).staged) :=
  ⟨⟨by decide, by decide, by decide⟩,
    (reconcile_ignores_unmatched store_main srC (by decide) (by decide)
      (by decide)).1⟩

/-- Claim C5 is false as stated: with two pending rows resolving to the
same employee at the same timestamp, swapping the processing order swaps
which row ends Processed and which Duplicate, and changes the created
checkin. -/
theorem reconcile_order_dependent_cx :
    (List.Perm [srB, srA] (get_pending store_perm))
    ∧ ((process_list no_fail store_perm [srB, srA]).staged
        ≠ (process_biometric_logs store_perm).staged)
    ∧ ((process_list no_fail store_perm [srB, srA]).checkins
        ≠ (process_biometric_logs store_perm).checkins) := by
  refine ⟨by decide, by decide, by decide⟩

/-- Claim C5 (amended): when no two pending rows resolve to the same
employee with an equal timestamp (and row names are unique), processing
the pending set in any order gives the same staged rows and the same
checkins up to order of insertion. -/
theorem reconcile_order_insensitive (s : Store) (logs : List StagedRecord)
    (hnd : (s.staged.map (fun x => x.name)).Nodup)
    (hdk : distinct_keys s (get_pending s))
    (hperm : logs.Perm (get_pending s)) :
    ((process_list no_fail s logs).staged = (process_biometric_logs s).staged)
    ∧ (process_list no_fail s logs).checkins.Perm
        (process_biometric_logs s).checkins := by
  have hnd0 := pending_names_nodup hnd
  have hndl : (logs.map (fun x => x.name)).Nodup :=
    ((hperm.map (fun x => x.name)).nodup_iff).mpr hnd0
  have hdkl : distinct_keys s logs :=
    (List.Perm.pairwise_iff (fun h => key_distinct_symm s h) hperm).mpr hdk
  obtain ⟨h1s, h1c⟩ := process_list_char s logs s [] rfl (by simp) (by simp)
    hdkl hndl
  obtain ⟨h2s, h2c⟩ := reconcile_char s hnd hdk
  constructor
  · rw [h1s, h2s]
    apply List.map_congr_left
    intro r _
    have hfind : logs.find? (fun x => x.name = r.name)
        = (get_pending s).find? (fun x => x.name = r.name) :=
      find?_eq_of_perm hperm (fun a ha b hb hpa hpb =>
        List.inj_on_of_nodup_map hndl ha hb (by
          simp only [decide_eq_true_eq] at hpa hpb
          rw [hpa, hpb]))
    rw [hfind]
  · rw [h1c, h2c]
    exact List.Perm.append_left _ (hperm.filterMap _)

/-- Witness for the amended C5: the two-row store `store_main`, processed
in reversed order. -/
theorem reconcile_order_insensitive_witness :
    ((store_main.staged.map (fun x => x.name)).Nodup
      ∧ distinct_keys store_main (get_pending store_main)
      ∧ List.Perm [srE, srC, srA] (get_pending store_main))
    ∧ ((process_list no_fail store_main [srE, srC, srA]).staged
          = (process_biometric_logs store_main).staged
      ∧ (process_list no_fail store_main [srE, srC, srA]).checkins.Perm
          (process_biometric_logs store_main).checkins) :=
  ⟨⟨by decide, by decide, by decide⟩,
    reconcile_order_insensitive store_main [srE, srC, srA] (by decide) (by decide)
      (by decide)⟩

/-- Claim C4: running the reconciliation pass twice in succession yields
the same staged records, the same checkins and the same error log as
running it once — the second run finds nothing pending. -/
theorem reconcile_idempotent (s : Store) :
    (process_biometric_logs (process_biometric_logs s)).staged
        = (process_biometric_logs s).staged
      ∧ (process_biometric_logs (process_biometric_logs s)).checkins
        = (process_biometric_logs s).checkins
      ∧ (process_biometric_logs (process_biometric_logs s)).errorLog
        = (process_biometric_logs s).errorLog := by
  rw [run_on_no_pending (get_pending_after s)]
  exact ⟨rfl, rfl, rfl⟩

/-- Claim C7: a pass leaves non-Pending rows untouched (given unique row
names), never rewrites or deletes an existing checkin, writes each pending
row's status exactly once and a non-pending row's status never, and emits
a single commit after all per-row effects. -/
theorem reconcile_frame (s : Store)
    (hnd : (s.staged.map (fun r => r.name)).Nodup) :
    (process_biometric_logs s).staged.length = s.staged.length
    ∧ (∀ r ∈ s.staged, ¬ r.status = "Pending" →
        r ∈ (process_biometric_logs s).staged)
    ∧ (∃ tl, (process_biometric_logs s).checkins = s.checkins ++ tl)
    ∧ (∀ r ∈ s.staged,
        ((process_biometric_logs s).events.countP (is_status_write r.name))
          = s.events.countP (is_status_write r.name)
            + (if r.status = "Pending" then 1 else 0))
    ∧ (∃ tl, (process_biometric_logs s).events = s.events ++ tl ++ [Event.commit]
        ∧ Event.commit ∉ tl) := by
  refine ⟨?_, ?_, ?_, ?_, ?_⟩
  · show (process_list no_fail s (get_pending s)).staged.length = _
    exact staged_length_process_list no_fail (get_pending s) s
  · intro r hr hst
    show r ∈ (process_list no_fail s (get_pending s)).staged
    exact untouched_process_list no_fail (get_pending s) s r hr
      (nonpending_name_notin_pending hnd hr hst)
  · obtain ⟨tl, htl⟩ := checkins_process_list no_fail (get_pending s) s
    exact ⟨tl, htl⟩
  · intro r hr
    show ((process_list no_fail s (get_pending s)).events ++ [Event.commit]).countP _ = _
    rw [List.countP_append, write_count_process_list]
    have hone : (List.countP (is_status_write r.name) [Event.commit]) = 0 := by
      simp [is_status_write]
    rw [hone]
    by_cases hst : r.status = "Pending"
    · have hmem : r.name ∈ (get_pending s).map (fun r => r.name) :=
        List.mem_map.mpr ⟨r, List.mem_filter.mpr ⟨hr, by simp [hst]⟩, rfl⟩
      rw [List.count_eq_one_of_mem (pending_names_nodup hnd) hmem, if_pos hst]
    · rw [List.count_eq_zero.mpr (nonpending_name_notin_pending hnd hr hst),
        if_neg hst]
  · obtain ⟨tl, htl, hc⟩ := events_process_list no_fail (get_pending s) s
    refine ⟨tl, ?_, hc⟩
    show (process_list no_fail s (get_pending s)).events ++ [Event.commit] = _
    rw [htl]

/-- Witness for C7 at the concrete store `store_main`. -/
theorem reconcile_frame_witness :
    ((store_main.staged.map (fun r => r.name)).Nodup)
    ∧ ((process_biometric_logs store_main).staged.length = store_main.staged.length
      ∧ (∀ r ∈ store_main.staged, ¬ r.status = "Pending" →
          r ∈ (process_biometric_logs store_main).staged)
      ∧ (∃ tl, (process_biometric_logs store_main).checkins
          = store_main.checkins ++ tl)
      ∧ (∀ r ∈ store_main.staged,
          ((process_biometric_logs store_main).events.countP (is_status_write r.name))
            = store_main.events.countP (is_status_write r.name)
              + (if r.status = "Pending" then 1 else 0))
      ∧ (∃ tl, (process_biometric_logs store_main).events
            = store_main.events ++ tl ++ [Event.commit]
          ∧ Event.commit ∉ tl)) :=
  ⟨by decide, reconcile_frame store_main (by decide)⟩

/-- Claim C6: when the iteration for one pending row raises (here at a
failure point reached regardless of checkin contents), the exception is
caught, an error mentioning the row's name is logged, the row itself is
left unchanged — still Pending — and every other pending row whose
iteration does not raise still reaches a terminal status; the pass itself
is a total function, so no exception escapes it. -/
theorem reconcile_fail_isolation (o : Oracle) (s : Store) (r : StagedRecord)
    (fp : FailPoint)
    (hnd : (s.staged.map (fun x => x.name)).Nodup)
    (hr : r ∈ get_pending s)
    (hfp : o r = some fp)
    (htrig : always_raises s r fp) :
    (r ∈ (process_biometric_logs_with o s).staged ∧ r.status = "Pending")
    ∧ ((fail_msg r.name, fail_title) ∈ (process_biometric_logs_with o s).errorLog)
    ∧ (∀ r' ∈ get_pending s, o r' = none →
        ∃ v, ¬v = "Pending"
          ∧ { r' with status := v } ∈ (process_biometric_logs_with o s).staged) := by
  have hnd0 := pending_names_nodup hnd
  have hrs : r ∈ s.staged := (List.mem_filter.mp hr).1
  have hpend : r.status = "Pending" := by
    have := (List.mem_filter.mp hr).2
    simpa using this
  obtain ⟨h1, h2⟩ := process_list_fail o (get_pending s) s r hr fp hfp htrig
    hnd0 r hrs rfl
  refine ⟨⟨h1, hpend⟩, h2, ?_⟩
  intro r' hr' ho
  exact process_list_ok o (get_pending s) s r' hr' ho hnd0 r'
    (List.mem_filter.mp hr').1 rfl

/-- Witness for C6: in `store_main`, the oracle making `SR-1` raise at the
employee lookup; `SR-3` and `SR-5` still terminate. -/
theorem reconcile_fail_isolation_witness :
    ((store_main.staged.map (fun x => x.name)).Nodup
      ∧ srA ∈ get_pending store_main
      ∧ oracle_sr1 srA = some FailPoint.atEmployeeLookup
      ∧ always_raises store_main srA FailPoint.atEmployeeLookup)
    ∧ ((srA ∈ (process_biometric_logs_with oracle_sr1 store_main).staged
        ∧ srA.status = "Pending")
      ∧ ((fail_msg srA.name, fail_title)
          ∈ (process_biometric_logs_with oracle_sr1 store_main).errorLog)
      ∧ (∀ r' ∈ get_pending store_main, oracle_sr1 r' = none →
          ∃ v, ¬v = "Pending"
            ∧ { r' with status := v }
                ∈ (process_biometric_logs_with oracle_sr1 store_main).staged)) :=
  ⟨⟨by decide, by decide, by decide, by decide⟩,
    reconcile_fail_isolation oracle_sr1 store_main srA FailPoint.atEmployeeLookup
      (by decide) (by decide) (by decide) (by decide)⟩

/-- Claim C8 is false as stated: on a store whose pass produces outcomes
in every class, the entry point still returns None — no count report. -/
theorem reconcile_returns_none_cx :
    (process_biometric_logs_result store_main).2 = none
    ∧ ((process_biometric_logs_result store_main).1.staged.map (fun r => r.status)
        = ["Processed", "Ignored", "Processed", "Duplicate"]) := by
  exact ⟨rfl, by decide⟩

/-- Claim C8 (amended): the reconciliation entry point returns no value
(Python None) — no per-outcome count report is produced; only the enqueue
wrapper returns a value, a fixed confirmation string. -/
theorem reconcile_returns_no_report (s : Store) :
    (process_biometric_logs_result s).2 = none
    ∧ (process_biometric_logs_result s).1 = process_biometric_logs s
    ∧ enqueue_process_biometric_logs
        = "Employee Checkin synchronization has started in the background." :=
  ⟨rfl, rfl, rfl⟩

/-- Claim C9: with no staged rows dated today the report function sends
no email and logs no error; with rows but no resolvable recipients it
sends no email and logs exactly one error. -/
theorem report_no_data_no_recipients
    (today : String) (dateOf : String → String) (mail_fails : Bool) (s : RStore) :
    (report_rows today dateOf s = [] →
      (send_exceptional_report today dateOf mail_fails s).emails = s.emails
      ∧ (send_exceptional_report today dateOf mail_fails s).errorLog = s.errorLog)
    ∧ (report_rows today dateOf s ≠ [] →
        get_recipients_by_roles s ["System Manager", "HR Manager"] = [] →
        (send_exceptional_report today dateOf mail_fails s).emails = s.emails
        ∧ (send_exceptional_report today dateOf mail_fails s).errorLog
            = s.errorLog ++ [("No recipients found for the exceptional report",
                "Exceptional Report")]) := by
  constructor
  · intro h
    simp [send_exceptional_report, h]
  · intro h hrec
    simp [send_exceptional_report, h, hrec]

/-- Witness for C9: the empty store (no data) and `rstore_data`
(data, no users). -/
theorem report_no_data_no_recipients_witness :
    ((report_rows "2026-10-12" (fun t => t) rstore_empty = [])
      ∧ (send_exceptional_report "2026-10-12" (fun t => t) false rstore_empty).emails = []
      ∧ (send_exceptional_report "2026-10-12" (fun t => t) false rstore_empty).errorLog = [])
    ∧ ((report_rows "2026-10-12" (fun t => t) rstore_data ≠ [])
      ∧ (get_recipients_by_roles rstore_data ["System Manager", "HR Manager"] = [])
      ∧ (send_exceptional_report "2026-10-12" (fun t => t) false rstore_data).emails = []
      ∧ (send_exceptional_report "2026-10-12" (fun t => t) false rstore_data).errorLog
          = [("No recipients found for the exceptional report", "Exceptional Report")]) := by
  have h1 := (report_no_data_no_recipients "2026-10-12" (fun t => t) false
    rstore_empty).1 (by decide)
  have h2 := (report_no_data_no_recipients "2026-10-12" (fun t => t) false
    rstore_data).2 (by decide) (by decide)
  exact ⟨⟨by decide, h1.1, h1.2⟩, ⟨by decide, by decide, h2.1, h2.2⟩⟩

/-- Claim C10 is false as stated: the no-data precondition is non-fatal
and returns early, but it logs nothing to the error log sink — the code
only prints to the console. -/
theorem report_no_data_not_logged_cx :
    (report_rows "2026-10-12" (fun t => t) rstore_empty = [])
    ∧ (send_exceptional_report "2026-10-12" (fun t => t) false rstore_empty).errorLog = []
    ∧ (send_exceptional_report "2026-10-12" (fun t => t) false rstore_empty).emails = []
    ∧ (send_exceptional_report "2026-10-12" (fun t => t) false rstore_empty).printed
        = ["No exceptional records to report."] := by
  exact ⟨by decide, by decide, by decide, by decide⟩

/-- Claim C10 (amended): all three report preconditions are non-fatal and
return early without an email and without raising; the no-recipients and
no-sender cases each log exactly one error entry, while the no-data case
logs nothing and only prints a console message. -/
theorem report_preconditions_nonfatal
    (today : String) (dateOf : String → String) (mail_fails : Bool) (s : RStore) :
    (report_rows today dateOf s = [] →
      (send_exceptional_report today dateOf mail_fails s)
        = { s with printed := s.printed ++ ["No exceptional records to report."] })
    ∧ (report_rows today dateOf s ≠ [] →
        get_recipients_by_roles s ["System Manager", "HR Manager"] = [] →
        (send_exceptional_report today dateOf mail_fails s).emails = s.emails
        ∧ (send_exceptional_report today dateOf mail_fails s).errorLog
            = s.errorLog ++ [("No recipients found for the exceptional report",
                "Exceptional Report")])
    ∧ (report_rows today dateOf s ≠ [] →
        get_recipients_by_roles s ["System Manager", "HR Manager"] ≠ [] →
        default_sender s = none →
        (send_exceptional_report today dateOf mail_fails s).emails = s.emails
        ∧ (send_exceptional_report today dateOf mail_fails s).errorLog
            = s.errorLog ++ [("No default sender email is configured.",
                "Exceptional Report")]) := by
  refine ⟨?_, ?_, ?_⟩
  · intro h
    simp [send_exceptional_report, h]
  · intro h hrec
    simp [send_exceptional_report, h, hrec]
  · intro h hrec hsend
    simp [send_exceptional_report, h, hrec, hsend]

/-- Witness for the amended C10 at three concrete stores: no data, data
without recipients, data and recipients without a sender. -/
theorem report_preconditions_nonfatal_witness :
    ((report_rows "2026-10-12" (fun t => t) rstore_empty = [])
      ∧ send_exceptional_report "2026-10-12" (fun t => t) false rstore_empty
          = { rstore_empty with printed := ["No exceptional records to report."] })
    ∧ ((report_rows "2026-10-12" (fun t => t) rstore_data ≠ [])
      ∧ (get_recipients_by_roles rstore_data ["System Manager", "HR Manager"] = [])
      ∧ (send_exceptional_report "2026-10-12" (fun t => t) false rstore_data).emails = [])
    ∧ ((report_rows "2026-10-12" (fun t => t) rstore_nosender ≠ [])
      ∧ (get_recipients_by_roles rstore_nosender ["System Manager", "HR Manager"] ≠ [])
      ∧ (default_sender rstore_nosender = none)
      ∧ (send_exceptional_report "2026-10-12" (fun t => t) false rstore_nosender).emails = []
      ∧ (send_exceptional_report "2026-10-12" (fun t => t) false rstore_nosender).errorLog
          = [("No default sender email is configured.", "Exceptional Report")]) := by
  have h1 := (report_preconditions_nonfatal "2026-10-12" (fun t => t) false
    rstore_empty).1 (by decide)
  have h2 := (report_preconditions_nonfatal "2026-10-12" (fun t => t) false
    rstore_data).2.1 (by decide) (by decide)
  have h3 := (report_preconditions_nonfatal "2026-10-12" (fun t => t) false
    rstore_nosender).2.2 (by decide) (by decide) (by decide)
  exact ⟨⟨by decide, h1⟩, ⟨by decide, by decide, h2.1⟩,
    ⟨by decide, by decide, by decide, h3.1, h3.2⟩⟩

end BiometricSync
